import Mathlib

/-!
Verification of the turn-orchestration agent (conversation engine, tool
execution, cache checkpoint manager, undo manager, provider adapters)
against its natural-language specification.

Each definition below is a shallow embedding of the corresponding Python
function from the repository source; doc comments name the source file.
-/

namespace Agent

/-- A tool call as carried on an assistant message
(`tool_calls[i]` dicts in `src/agent.py` / provider adapters):
`id` (absent modelled as `none`, read with `tc.get("id", "unknown")`),
`function.name`, and `function.arguments` (a JSON-encoded string). -/
structure ToolCall where
  id : Option String
  name : String
  arguments : String
deriving DecidableEq, Repr

/-- One content block of a structured (list-form) message content, as used by
`src/cache.py`: a dict with `"type"`, `"text"` and an optional
`"cache_control"` key.  Marker presence is modelled as a Bool. -/
structure Block where
  btype : String
  text : String
  cacheControl : Bool
deriving DecidableEq, Repr

/-- Message content: either a plain string or a list of typed blocks
(the two shapes `src/cache.py` distinguishes with `isinstance`). -/
inductive Content where
  | str : String → Content
  | blocks : List Block → Content
deriving DecidableEq, Repr

/-- A conversation message (`{"role", "content", ...}` dict of `src/agent.py`).
Optional tool fields are present only on `tool` messages; `toolCalls` only on
assistant messages (empty list when absent). -/
structure Message where
  role : String
  content : Content
  toolCallId : Option String := none
  name : Option String := none
  toolCalls : List ToolCall := []
deriving DecidableEq, Repr

/-! ## `src/utils.py` — output truncation -/

/-- `config.tool_output_limit` from `src/config.py`. -/
def tool_output_limit : Nat := 1000

/-- `char_limit = config.tool_output_limit * 4` from `src/utils.py`. -/
def char_limit : Nat := tool_output_limit * 4

/-- `limit_output` from `src/utils.py`: output longer than `char_limit`
characters is cut to the first `char_limit` characters and suffixed with a
marker stating the original total length (the unused `is_error` parameter of
the source is omitted). -/
def limit_output (output : String) : String :=
  if output.length > char_limit then
    output.take char_limit
      ++ "\n... (Output truncated. Total length: " ++ toString output.length ++ " chars.)"
  else
    output

/-! ## `src/tools.py` — `update_file` -/

/-- The filesystem, as `update_file` observes it: a map from path to file
content, `none` meaning the file does not exist (reading it raises). -/
def FS : Type := String → Option String

/-- `pat.data` starts the given character list (helper for the Python
substring test `old_content in current_content`). -/
def startsWithList : List Char → List Char → Bool
  | [], _ => true
  | _ :: _, [] => false
  | p :: ps, c :: cs => p == c && startsWithList ps cs

/-- Python's `pat in hay` substring containment on character lists. -/
def containsList (pat : List Char) : List Char → Bool
  | [] => startsWithList pat []
  | c :: cs => startsWithList pat (c :: cs) || containsList pat cs

/-- Python's `pat in hay` substring containment on strings. -/
def containsStr (hay pat : String) : Bool :=
  containsList pat.data hay.data

/-- Python's `s.lower()` for the ASCII identifiers this program handles. -/
def lowerString (s : String) : String :=
  String.mk (s.data.map Char.toLower)

/-- Python's `s.replace(pat, rep)` on character lists: replace non-overlapping
occurrences left to right.  `fuel` bounds the recursion; every step consumes
at least one character, so the string length suffices. -/
def stripPatAux (pat rep : List Char) : Nat → List Char → List Char
  | 0, l => l
  | _ + 1, [] => []
  | fuel + 1, c :: cs =>
    if startsWithList pat (c :: cs) then rep ++ stripPatAux pat rep fuel ((c :: cs).drop pat.length)
    else c :: stripPatAux pat rep fuel cs

/-- Python's `s.replace(pat, rep)` for non-empty `pat`. -/
def pyReplace (s pat rep : String) : String :=
  String.mk (stripPatAux pat.data rep.data s.data.length s.data)

/-- Result and new filesystem of `update_file(path, content, old_content)`
from `src/tools.py`.  Faithful to the source's branch order: missing
arguments, then the partial-update path when `old_content` is truthy
(non-`None` and non-empty), else full overwrite.  The Python read failure
(file missing) is the filesystem returning `none`; the interpolated
exception text of that error message is abbreviated to its fixed parts.
Writes are modelled as always succeeding. -/
def update_file (fs : FS) (path : String) : Option String → Option String → FS × String
  | none, _ => (fs, "Error: \x27path\x27 and \x27content\x27 are required.")
  | some c, some oc =>
    if path = "" then
      (fs, "Error: \x27path\x27 and \x27content\x27 are required.")
    else if oc ≠ "" then
      match fs path with
      | none =>
        (fs, "Error reading file for partial update: No such file or directory. (File must exist for partial updates)")
      | some current =>
        if ¬ containsStr current oc then
          (fs, "Error: \x27old_content\x27 text block not found in file. Please ensure exact match (including whitespace/indentation).")
        else
          (fun p => if p = path then some (pyReplace current oc c) else fs p,
           "Successfully updated " ++ path ++ " (partial replace).")
    else
      (fun p => if p = path then some c else fs p,
       "Successfully updated " ++ path ++ " (full overwrite).")
  | some c, none =>
    if path = "" then
      (fs, "Error: \x27path\x27 and \x27content\x27 are required.")
    else
      (fun p => if p = path then some c else fs p,
       "Successfully updated " ++ path ++ " (full overwrite).")

/-! ## `src/agent.py` — tool execution subsystem -/

/-- A parsed tool-call arguments object (the dict produced by `json.loads`):
parameter name to value.  The claims never inspect argument values, so values
are modelled as strings. -/
def Args : Type := List (String × String)

/-- A tool implementation from the `TOOLS` registry: it either returns a
result string or raises (`Except.error` carries `str(e)`). -/
def ToolImpl : Type := Args → Except String String

/-- The `TOOLS` registry of `src/tools.py` / `src/agent.py`: a partial map
from tool name to implementation.  Kept abstract: the claims quantify over
the registry's contents. -/
def Registry : Type := String → Option ToolImpl

/-- The JSON library's `json.loads` on an argument string: returns the parsed
object or raises (`Except.error` carries the decode-error text).  The
subsystem embedding is parametrised by it. -/
def JsonLoads : Type := String → Except String Args

/-- `json.loads(tc["function"]["arguments"]) if tc["function"]["arguments"]
else {}` from `src/agent.py` (lines 164 and 196). -/
def parseArguments (jsonLoads : JsonLoads) (tc : ToolCall) : Except String Args :=
  if tc.arguments = "" then Except.ok ([] : Args) else jsonLoads tc.arguments

/-- The `tool` message appended for one executed call in `execute_tools`
(`src/agent.py` line 211): role `tool`, `tool_call_id = tc.get("id",
"unknown")`, the call's name, and the (stringified) result. -/
def toolMessage (callId toolName result : String) : Message :=
  { role := "tool", content := Content.str result,
    toolCallId := some callId, name := some toolName }

/-- The per-call execution loop of `execute_tools` (`src/agent.py` lines
194-212).  Returns the `tool` messages appended, and `some e` when an
exception escaped the loop (only the argument-parsing step at line 196 can
raise: the tool invocation itself is wrapped in `try/except`).  Messages of
calls executed before a raising call remain appended. -/
def runCalls (jsonLoads : JsonLoads) (tools : Registry) :
    List ToolCall → List Message × Option String
  | [] => ([], none)
  | tc :: rest =>
    match parseArguments jsonLoads tc with
    | Except.error e => ([], some e)
    | Except.ok args =>
      let result : String :=
        match tools tc.name with
        | some f =>
          match f args with
          | Except.ok r => r
          | Except.error e => "Error: " ++ e
        | none => "Error: Tool \x27" ++ tc.name ++ "\x27 not found."
      let t := runCalls jsonLoads tools rest
      (toolMessage (tc.id.getD "unknown") tc.name result :: t.1, t.2)

/-- The cancellation `tool` message appended for each call when approval is
declined or the approval prompt is interrupted (`src/agent.py` lines
175-191). -/
def cancelMessage (tc : ToolCall) : Message :=
  toolMessage (tc.id.getD "unknown") tc.name "Tool execution cancelled by user."

/-- `config.mode`: `auto` or `manual` (`src/config.py`). -/
inductive Mode where
  | auto
  | manual
deriving DecidableEq, Repr

/-- Outcome of the manual-mode approval prompt: an approving answer, a
declining answer (`"n"`/`"no"`), or `EOFError`/`KeyboardInterrupt`. -/
inductive Approval where
  | approved
  | declined
  | interrupted
deriving DecidableEq, Repr

/-- The argument-parsing pass of the manual-mode display loop
(`src/agent.py` lines 162-165): every call's arguments are parsed for
display before the approval prompt; the first parse failure raises. -/
def displayParse (jsonLoads : JsonLoads) : List ToolCall → Option String
  | [] => none
  | tc :: rest =>
    match parseArguments jsonLoads tc with
    | Except.error e => some e
    | Except.ok _ => displayParse jsonLoads rest

/-- `execute_tools` from `src/agent.py`: manual mode first parses all
arguments for display (a failure there raises before anything is appended),
then either appends cancellation messages for the whole batch or runs the
calls; auto mode runs the calls directly.  The second component is `some e`
when an exception escaped the subsystem. -/
def execute_tools (jsonLoads : JsonLoads) (tools : Registry) (mode : Mode)
    (approval : Approval) (tcs : List ToolCall) : List Message × Option String :=
  match mode with
  | Mode.manual =>
    match displayParse jsonLoads tcs with
    | some e => ([], some e)
    | none =>
      match approval with
      | Approval.approved => runCalls jsonLoads tools tcs
      | Approval.declined => (tcs.map cancelMessage, none)
      | Approval.interrupted => (tcs.map cancelMessage, none)
  | Mode.auto => runCalls jsonLoads tools tcs

/-! ## `src/cache.py` — cache checkpoint manager -/

/-- Python truthiness test of `src/cache.py` line 45: the message content is
non-empty (a non-empty string, or a list with at least one block). -/
def hasContent : Content → Bool
  | Content.str s => s ≠ ""
  | Content.blocks bs => ¬ bs.isEmpty

/-- `any(block.get("cache_control") for block in msg["content"])` when the
content is a list; string content never carries a marker. -/
def hasCacheControl : Content → Bool
  | Content.str _ => false
  | Content.blocks bs => bs.any (fun b => b.cacheControl)

/-- `content[-1]["cache_control"] = {"type": "ephemeral"}`: set the marker
on the last block of a list. -/
def markLast : List Block → List Block
  | [] => []
  | [b] => [{ b with cacheControl := true }]
  | b :: b2 :: rest => b :: markLast (b2 :: rest)

/-- Removal branch of `src/cache.py` lines 66-69: delete `cache_control`
from every block of the message's list content. -/
def clearMarks (bs : List Block) : List Block :=
  bs.map (fun b => { b with cacheControl := false })

/-- `src/cache.py` step 1: ensure the system prompt carries a marker.
String content is coerced to a one-block list with the marker; list content
gets the marker on its last block unless some block already has one (or the
list is empty). -/
def markSystemContent : Content → Content
  | Content.str s => Content.blocks [⟨"text", s, true⟩]
  | Content.blocks bs =>
    if bs.any (fun b => b.cacheControl) then Content.blocks bs
    else if bs.isEmpty then Content.blocks bs
    else Content.blocks (markLast bs)

/-- `next((m for m in messages if m["role"] == "system"), None)`: the first
system message, if any. -/
def firstSystemMsg : List Message → Option Message
  | [] => none
  | m :: rest => if m.role = "system" then some m else firstSystemMsg rest

/-- `next((m for m in messages if m["role"] == "system"), None)` followed by
the in-place content mutation of step 1: only the first system message is
touched. -/
def markFirstSystem : List Message → List Message
  | [] => []
  | m :: rest =>
    if m.role = "system" then { m with content := markSystemContent m.content } :: rest
    else m :: markFirstSystem rest

/-- Constant from `src/cache.py`. -/
def SYSTEM_AND_TOOLS_CHECKPOINTS : Nat := 2

/-- Constant from `src/cache.py`. -/
def MAX_CHECKPOINTS : Nat := 4

/-- `MAX_CHECKPOINTS - SYSTEM_AND_TOOLS_CHECKPOINTS` from `src/cache.py`. -/
def HISTORY_CHECKPOINTS_QUOTA : Nat := MAX_CHECKPOINTS - SYSTEM_AND_TOOLS_CHECKPOINTS

/-- Constant from `src/cache.py`. -/
def CHECKPOINT_INTERVAL : Nat := 8

/-- The role of message `i`, `none` when out of range. -/
def roleAt (msgs : List Message) (i : Nat) : Option String :=
  (msgs[i]?).map (fun m => m.role)

/-- Whether message `i` exists and has non-empty content. -/
def contentAt (msgs : List Message) (i : Nat) : Bool :=
  match msgs[i]? with
  | some m => hasContent m.content
  | none => false

/-- `candidate_indices` of `src/cache.py` lines 31-35: non-system message
indices that are positive multiples of the checkpoint interval, in index
order. -/
def candidateIndices (msgs : List Message) : List Nat :=
  (List.range msgs.length).filter (fun i =>
    !(roleAt msgs i == some "system") && i % CHECKPOINT_INTERVAL == 0 && decide (0 < i))

/-- `0 < search_idx < len(messages)` together with the non-empty-content
test on the searched message (`src/cache.py` lines 42-48). -/
def searchHit (msgs : List Message) (j : Int) : Bool :=
  decide (0 < j) && decide (j < (msgs.length : Int)) && contentAt msgs j.toNat

/-- Snapping of one candidate index: try offsets `0, -1, +1, -2, +2` in that
order, take the first in-bounds index with content; `none` is the source's
`best_index = -1`. -/
def snapIndex (msgs : List Message) (i : Nat) : Option Nat :=
  (([(i : Int), (i : Int) - 1, (i : Int) + 1, (i : Int) - 2, (i : Int) + 2].find?
      (searchHit msgs)).map Int.toNat)

/-- The `final_indices` accumulation loop of `src/cache.py` lines 37-51:
snapped candidates appended in order, duplicates discarded. -/
def collectFinal (snap : Nat → Option Nat) : List Nat → List Nat → List Nat
  | [], acc => acc
  | c :: cs, acc =>
    match snap c with
    | some b => if b ∈ acc then collectFinal snap cs acc else collectFinal snap cs (acc ++ [b])
    | none => collectFinal snap cs acc

/-- `final_indices`, trimmed to the last `HISTORY_CHECKPOINTS_QUOTA` entries
(`final_indices[-HISTORY_CHECKPOINTS_QUOTA:]`) when over quota. -/
def finalIndices (msgs : List Message) : List Nat :=
  let fi := collectFinal (snapIndex msgs) (candidateIndices msgs) []
  if fi.length > HISTORY_CHECKPOINTS_QUOTA then fi.drop (fi.length - HISTORY_CHECKPOINTS_QUOTA)
  else fi

/-- The checkpoint-addition coercion of `src/cache.py` lines 72-79: string
content becomes a one-block marked list; non-empty list content gets the
marker on its last block; empty list content is left alone. -/
def addMarker : Content → Content
  | Content.str s => Content.blocks [⟨"text", s, true⟩]
  | Content.blocks bs =>
    if bs.isEmpty then Content.blocks bs else Content.blocks (markLast bs)

/-- The marker-removal coercion (`src/cache.py` lines 66-69). -/
def removeMarkers : Content → Content
  | Content.str s => Content.str s
  | Content.blocks bs => Content.blocks (clearMarks bs)

/-- Body of the final per-message loop of `src/cache.py` lines 56-80:
system messages are skipped; a marker not among the desired indices is
removed; a desired index lacking a marker gets one. -/
def transformMsg (finals : List Nat) (i : Nat) (m : Message) : Message :=
  if m.role = "system" then m
  else
    if hasCacheControl m.content ∧ i ∉ finals then
      { m with content := removeMarkers m.content }
    else if ¬ hasCacheControl m.content ∧ i ∈ finals then
      { m with content := addMarker m.content }
    else m

/-- The indexed traversal of the final loop (`for i, msg in
enumerate(messages)`), starting at index `i`. -/
def applyPass (finals : List Nat) : Nat → List Message → List Message
  | _, [] => []
  | i, m :: rest => transformMsg finals i m :: applyPass finals (i + 1) rest

/-- The Anthropic-model path of `manage_cache`: mark the system prompt,
compute the desired history checkpoints on the marked list, then add/remove
markers per message. -/
def applyCache (msgs : List Message) : List Message :=
  let m1 := markFirstSystem msgs
  applyPass (finalIndices m1) 0 m1

/-- `manage_cache` from `src/cache.py`.  `isAnthropic` embeds the
`"anthropic" in config.model or "claude" in config.model` guard: when false
the function is a no-op. -/
def manage_cache (isAnthropic : Bool) (msgs : List Message) : List Message :=
  if isAnthropic then applyCache msgs else msgs

/-! ## `src/undo.py` and `src/agent.py` — conversation state and undo

A snapshot (`src/undo.py` `start_turn`) stores a deep copy of the message
list; its filesystem payload (git tree hash or pre-image map) is not
modelled, since the claims under verification concern only conversation
state.  The Python history list pushes and pops at its end; it is modelled
as a stack with its top at the head. -/

/-- The in-memory agent state: the conversation (`messages` of
`src/agent.py`) and the undo stack (`UndoManager.history`). -/
structure AgentState where
  messages : List Message
  history : List (List Message)
deriving DecidableEq, Repr

/-- `messages = [{"role": "system", "content": SYSTEM_PROMPT}]`
(`src/agent.py` line 106), parametrised by the prompt text. -/
def initState (systemPrompt : String) : AgentState :=
  ⟨[{ role := "system", content := Content.str systemPrompt }], []⟩

/-- The `user` message appended by `process_turn_logic`
(`src/agent.py` line 220). -/
def userMsg (input : String) : Message :=
  { role := "user", content := Content.str input }

/-- The `assistant` message appended by `process_turn_logic`
(`src/agent.py` lines 249-256); reasoning fields are not modelled. -/
def assistantMsg (content : String) (tcs : List ToolCall) : Message :=
  { role := "assistant", content := Content.str content, toolCalls := tcs }

/-- `UndoManager.start_turn` (`src/undo.py`): push a deep copy of the
current message list onto the history stack. -/
def start_turn (s : AgentState) : AgentState :=
  ⟨s.messages, s.messages :: s.history⟩

/-- `UndoManager.undo` combined with its caller (`src/agent.py` lines
328-335): pop the most recent snapshot and return its stored message list
(`none` when the stack is empty, leaving the state unchanged); the caller
installs the returned list as the conversation when it is truthy
(non-empty). -/
def undo (s : AgentState) : Option (List Message) × AgentState :=
  match s.history with
  | [] => (none, s)
  | snap :: rest => (some snap, ⟨if snap.isEmpty then s.messages else snap, rest⟩)

/-- One turn of `process_turn_logic` (`src/agent.py` lines 215-266):
snapshot first, then append the user message, then run the model/tool loop.
Everything the loop does to the conversation after the user message —
appending assistant and tool messages, and in-place cache-marker mutation
performed by the provider adapters — is abstracted as the function `act`
applied to the message list. -/
def doTurn (s : AgentState) (input : String) (act : List Message → List Message) :
    AgentState :=
  let s1 := start_turn s
  ⟨act (s1.messages ++ [userMsg input]), s1.history⟩

/-- The conversation-mutating operations of the engine, as a step relation:
appending a user message, appending an assistant message, appending the
tool messages produced by `execute_tools` (including the partial list left
when the subsystem raises), starting a turn (snapshot push), cache-marker
recomputation, and undo (with the source's truthiness guard on the restored
list). -/
inductive Step : AgentState → AgentState → Prop
  | user (s : AgentState) (input : String) :
      Step s ⟨s.messages ++ [userMsg input], s.history⟩
  | assistant (s : AgentState) (content : String) (tcs : List ToolCall) :
      Step s ⟨s.messages ++ [assistantMsg content tcs], s.history⟩
  | tools (s : AgentState) (jsonLoads : JsonLoads) (reg : Registry) (mode : Mode)
      (approval : Approval) (tcs : List ToolCall) :
      Step s ⟨s.messages ++ (execute_tools jsonLoads reg mode approval tcs).1, s.history⟩
  | startTurn (s : AgentState) :
      Step s (start_turn s)
  | cache (s : AgentState) (isAnthropic : Bool) :
      Step s ⟨manage_cache isAnthropic s.messages, s.history⟩
  | undoPop (s : AgentState) (snap : List Message) (rest : List (List Message))
      (h : s.history = snap :: rest) (hne : ¬ snap.isEmpty) :
      Step s ⟨snap, rest⟩
  | undoPopEmpty (s : AgentState) (snap : List Message) (rest : List (List Message))
      (h : s.history = snap :: rest) (he : snap.isEmpty) :
      Step s ⟨s.messages, rest⟩
  | undoNothing (s : AgentState) (h : s.history = []) :
      Step s s

/-- States reachable from the initial state by engine operations. -/
inductive Reachable : AgentState → Prop
  | init (systemPrompt : String) : Reachable (initState systemPrompt)
  | step {s t : AgentState} : Reachable s → Step s t → Reachable t

/-- The roles of a message list, in order. -/
def rolesOf (msgs : List Message) : List String :=
  msgs.map (fun m => m.role)

/-- The system-message invariant on a conversation: the first message has
role `system` and it is the only system message. -/
def convOk (msgs : List Message) : Prop :=
  (rolesOf msgs).head? = some "system" ∧ (rolesOf msgs).count "system" = 1

/-- The invariant strengthened to the undo stack: every snapshot also
satisfies it. -/
def stateOk (s : AgentState) : Prop :=
  convOk s.messages ∧ ∀ snap ∈ s.history, convOk snap

/-! ## `src/providers/openrouter.py` and `src/providers/gemini.py` -/

/-- The OpenRouter wire usage record (`data.get("usage", {})`): token counts
and the cost OpenRouter itself reports when `usage: {include: true}` is
requested (`none` when the response carries no cost). -/
structure ORUsage where
  promptTokens : Nat
  completionTokens : Nat
  cachedTokens : Nat
  cost : Option ℚ
deriving DecidableEq, Repr

/-- One HTTP exchange as `call_openrouter` observes it: a network-level
failure (`requests.exceptions.RequestException`), or a response with its
status code, whether the JSON body has an `"error"` key, whether
`"choices"` is present and non-empty, and the body's usage record. -/
inductive ORStep where
  | netErr
  | http (status : Nat) (errField : Bool) (choicesNonempty : Bool) (usage : ORUsage)
deriving Repr

/-- Outcome of `call_openrouter`: a returned message/usage pair (usage kept;
the message payload is not modelled), an immediately-raised API error with
its status, or the terminal `Failed to call OpenRouter API after 3
retries.` error. -/
inductive ORRes where
  | ok (usage : ORUsage)
  | fatal (status : Nat)
  | exhausted
deriving DecidableEq, Repr

/-- Trace of a retry loop: its result, the number of HTTP requests issued,
and the `asyncio.sleep` backoff delays (in seconds) in order. -/
structure RetryTrace (ρ : Type) where
  result : ρ
  attempts : Nat
  delays : List Nat
deriving DecidableEq, Repr

/-- The `for attempt in range(3)` retry loop of `call_openrouter`
(`src/providers/openrouter.py` lines 101-143).  `backend` gives the outcome
of the HTTP exchange on each attempt; `fuel` counts remaining iterations.
Retryable outcomes (network error, 5xx, 429, an `error` body field, empty
`choices`) sleep `2**attempt` seconds and continue; any other non-200
status raises immediately; exhaustion raises the terminal error. -/
def orLoop (backend : Nat → ORStep) : Nat → Nat → RetryTrace ORRes
  | _, 0 => ⟨ORRes.exhausted, 0, []⟩
  | attempt, fuel + 1 =>
    match backend attempt with
    | ORStep.netErr =>
      let t := orLoop backend (attempt + 1) fuel
      ⟨t.result, t.attempts + 1, 2 ^ attempt :: t.delays⟩
    | ORStep.http status errField choicesNonempty usage =>
      if status ≠ 200 then
        if 500 ≤ status ∨ status = 429 then
          let t := orLoop backend (attempt + 1) fuel
          ⟨t.result, t.attempts + 1, 2 ^ attempt :: t.delays⟩
        else ⟨ORRes.fatal status, 1, []⟩
      else if errField then
        let t := orLoop backend (attempt + 1) fuel
        ⟨t.result, t.attempts + 1, 2 ^ attempt :: t.delays⟩
      else if ¬ choicesNonempty then
        let t := orLoop backend (attempt + 1) fuel
        ⟨t.result, t.attempts + 1, 2 ^ attempt :: t.delays⟩
      else ⟨ORRes.ok usage, 1, []⟩

/-- `call_openrouter`'s control flow: the retry loop entered with
`attempt = 0` and 3 iterations.  The returned usage record is
`data.get("usage", {})` passed through unchanged — the adapter performs no
cost computation of its own. -/
def call_openrouter (backend : Nat → ORStep) : RetryTrace ORRes :=
  orLoop backend 0 3

/-- `usageMetadata` of a Gemini response (`usage.get(...)` defaults of
`calculate_gemini_cost`). -/
structure GeminiUsage where
  promptTokenCount : Nat
  candidatesTokenCount : Nat
  thoughtsTokenCount : Nat
  cachedContentTokenCount : Nat
deriving DecidableEq, Repr

/-- A per-model rate set of the price table in `calculate_gemini_cost`
(dollars per million tokens). -/
structure Pricing where
  input : ℚ
  output : ℚ
  cached : ℚ
deriving DecidableEq, Repr

/-- The per-model price table of `calculate_gemini_cost`
(`src/providers/gemini.py` lines 104-155), including the 200k prompt-token
tier threshold for the capacity-tiered Pro models; `none` for models not in
the table (cost 0). -/
def geminiPricing (model_id : String) (prompt_tokens : Nat) : Option Pricing :=
  if model_id = "gemini-2.5-pro" then
    some (if prompt_tokens > 200000 then ⟨2.50, 15.00, 0.25⟩ else ⟨1.25, 10.00, 0.125⟩)
  else if model_id = "gemini-3-pro" ∨ model_id = "gemini-3-pro-preview" then
    some (if prompt_tokens > 200000 then ⟨4.00, 18.00, 0.40⟩ else ⟨2.00, 12.00, 0.20⟩)
  else if model_id = "gemini-2.5-flash-lite" then some ⟨0.10, 0.40, 0.01⟩
  else if model_id = "gemini-2.5-flash" then some ⟨0.30, 2.50, 0.03⟩
  else if model_id = "gemini-2.0-flash-lite" then some ⟨0.075, 0.30, 0.0⟩
  else if model_id = "gemini-2.0-flash" then some ⟨0.10, 0.40, 0.025⟩
  else none

/-- `model_id` normalisation of `calculate_gemini_cost`: lower-case, then
strip a leading `google/` (Python replaces all occurrences, guarded by a
startswith check). -/
def normalizeModelId (model : String) : String :=
  let lowered := lowerString model
  if startsWithList "google/".data lowered.data then pyReplace lowered "google/" ""
  else lowered

/-- `calculate_gemini_cost` from `src/providers/gemini.py`: token counts
from `usageMetadata` (`none` models a falsy `usage`), output tokens are
candidate plus thought tokens, regular input tokens are
`max(0, prompt - cached)` (Nat subtraction), and the cost formula over the
per-model rates.  Python computes in floating point; the arithmetic is
embedded over ℚ. -/
def calculate_gemini_cost (model : String) (usage : Option GeminiUsage) : ℚ :=
  match usage with
  | none => 0
  | some u =>
    let model_id := normalizeModelId model
    let prompt_tokens := u.promptTokenCount
    let output_tokens := u.candidatesTokenCount + u.thoughtsTokenCount
    let cached_tokens := u.cachedContentTokenCount
    let regular_input_tokens := prompt_tokens - cached_tokens
    match geminiPricing model_id prompt_tokens with
    | none => 0
    | some p =>
      (regular_input_tokens : ℚ) / 1000000 * p.input
        + (output_tokens : ℚ) / 1000000 * p.output
        + (cached_tokens : ℚ) / 1000000 * p.cached

/-- One HTTP exchange as `call_gemini` observes it: network failure, or a
response with status, whether `candidates` is present and non-empty,
whether `promptFeedback` is populated, and the optional `usageMetadata`. -/
inductive GemStep where
  | netErr
  | http (status : Nat) (candidatesNonempty : Bool) (hasPromptFeedback : Bool)
      (usageMetadata : Option GeminiUsage)
deriving Repr

/-- Outcome of `call_gemini`: success carrying the returned usage (the
wire `usageMetadata` with the locally computed cost folded in), an
immediately-raised HTTP error, the safety-block error, the no-candidates
error, or the terminal retries-exhausted error. -/
inductive GemRes where
  | ok (usage : Option (GeminiUsage × ℚ))
  | fatalHttp (status : Nat)
  | safetyBlocked
  | noCandidates
  | exhausted
deriving DecidableEq, Repr

/-- The `while attempt < MAX_RETRIES` loop of `call_gemini`
(`src/providers/gemini.py` lines 238-325).  On a retryable failure (5xx,
429, network error) `attempt` is incremented first and the sleep is
`1 * (2 ** attempt)` with the incremented value; other non-200 statuses
raise; a 200 body folds `calculate_gemini_cost` into `usageMetadata`, then
an empty `candidates` raises (safety block when `promptFeedback` is
populated). -/
def gemLoop (model_id : String) (backend : Nat → GemStep) : Nat → Nat → RetryTrace GemRes
  | _, 0 => ⟨GemRes.exhausted, 0, []⟩
  | attempt, fuel + 1 =>
    match backend attempt with
    | GemStep.netErr =>
      let t := gemLoop model_id backend (attempt + 1) fuel
      ⟨t.result, t.attempts + 1, 2 ^ (attempt + 1) :: t.delays⟩
    | GemStep.http status candidatesNonempty hasPromptFeedback usageMetadata =>
      if status ≠ 200 then
        if 500 ≤ status ∨ status = 429 then
          let t := gemLoop model_id backend (attempt + 1) fuel
          ⟨t.result, t.attempts + 1, 2 ^ (attempt + 1) :: t.delays⟩
        else ⟨GemRes.fatalHttp status, 1, []⟩
      else if ¬ candidatesNonempty then
        if hasPromptFeedback then ⟨GemRes.safetyBlocked, 1, []⟩
        else ⟨GemRes.noCandidates, 1, []⟩
      else
        ⟨GemRes.ok (usageMetadata.map
          (fun u => (u, calculate_gemini_cost model_id (some u)))), 1, []⟩

/-- `call_gemini`'s control flow: `MAX_RETRIES = 3`, `attempt = 0`. -/
def call_gemini (model_id : String) (backend : Nat → GemStep) : RetryTrace GemRes :=
  gemLoop model_id backend 0 3

/-- The spec's cost formula, written from the specification text:
`cost = (promptTokens - cachedTokens)/1e6 * inputRate + outputTokens/1e6 *
outputRate + cachedTokens/1e6 * cachedRate` (subtraction over ℚ). -/
def specCostFormula (p : Pricing) (promptTokens outputTokens cachedTokens : Nat) : ℚ :=
  ((promptTokens : ℚ) - (cachedTokens : ℚ)) / 1000000 * p.input
    + (outputTokens : ℚ) / 1000000 * p.output
    + (cachedTokens : ℚ) / 1000000 * p.cached

/-! ## Concrete instances used to evaluate the theorems on closed inputs -/

/-- A single-file filesystem for concrete evaluation of `update_file`. -/
def fsW : FS := fun p => if p = "/tmp/notes.txt" then some "hello world" else none

/-- Models Python's `json.loads` on the concrete argument strings exercised
below: the two malformed strings raise with the library's decode-error
messages; all other inputs (none of which are exercised at a concrete
point) parse to the empty object. -/
def jsonLoadsModel : JsonLoads := fun s =>
  if s = "\x7b" then
    Except.error "Expecting property name enclosed in double quotes: line 1 column 2 (char 1)"
  else if s = "not valid json" then
    Except.error "Expecting value: line 1 column 1 (char 0)"
  else Except.ok []

/-- A registry fragment for concrete evaluation: a succeeding `bash` tool
and a tool whose implementation raises. -/
def toolsModel : Registry := fun n =>
  if n = "bash" then some (fun _ => Except.ok "(Command executed successfully with no output)")
  else if n = "raiser" then some (fun _ => Except.error "division by zero")
  else none

end Agent

namespace Agent

/-! # Theorems -/

/-- C7: a tool-output string of exactly the configured character limit is
returned unmodified by `limit_output`; a string strictly longer is cut to
the prefix of `char_limit` characters and suffixed with the marker stating
the original total character length. -/
theorem limit_output_boundary (s t : String)
    (hs : s.length = char_limit) (ht : t.length > char_limit) :
    limit_output s = s
    ∧ limit_output t = t.take char_limit
        ++ "\n... (Output truncated. Total length: " ++ toString t.length ++ " chars.)" := by
  constructor
  · unfold limit_output
    rw [hs]
    simp
  · unfold limit_output
    rw [if_pos ht]

/-- Witness for `limit_output_boundary`: concrete strings of 4000 and 4001
characters against the configured 4000-character budget. -/
theorem limit_output_boundary_witness :
    limit_output (String.mk (List.replicate 4000 'a')) = String.mk (List.replicate 4000 'a')
    ∧ limit_output (String.mk (List.replicate 4001 'a'))
      = (String.mk (List.replicate 4001 'a')).take char_limit
        ++ "\n... (Output truncated. Total length: "
        ++ toString (String.mk (List.replicate 4001 'a')).length ++ " chars.)" := by
  have h1 : (String.mk (List.replicate 4000 'a')).length = char_limit := by
    show (List.replicate 4000 'a').length = char_limit
    rw [List.length_replicate]
    decide
  have h2 : (String.mk (List.replicate 4001 'a')).length > char_limit := by
    show (List.replicate 4001 'a').length > char_limit
    rw [List.length_replicate]
    decide
  exact limit_output_boundary _ _ h1 h2

/-- C10: an `update_file` call with a non-empty `old_content` that does not
occur in the current file content — or whose file cannot be read — returns
an error string and leaves the whole filesystem unchanged. -/
theorem update_file_not_found_preserves_fs (fs : FS) (path c oc : String)
    (hoc : oc ≠ "")
    (hmiss : ∀ current, fs path = some current → containsStr current oc = false) :
    (update_file fs path (some c) (some oc)).1 = fs
    ∧ startsWithList "Error".data (update_file fs path (some c) (some oc)).2.data = true := by
  by_cases hp : path = ""
  · simp [update_file, hp]
    decide
  · cases hfs : fs path with
    | none =>
      simp [update_file, hp, hoc, hfs]
      decide
    | some current =>
      have hc : containsStr current oc = false := hmiss current hfs
      simp [update_file, hp, hoc, hfs, hc]
      decide

/-- Witness for `update_file_not_found_preserves_fs`: a partial update whose
`old_content` is absent from the concrete file. -/
theorem update_file_not_found_witness :
    (update_file fsW "/tmp/notes.txt" (some "new text") (some "absent")).1 = fsW
    ∧ startsWithList "Error".data
        (update_file fsW "/tmp/notes.txt" (some "new text") (some "absent")).2.data = true := by
  apply update_file_not_found_preserves_fs
  · decide
  · intro current h
    have h0 : fsW "/tmp/notes.txt" = some "hello world" := rfl
    rw [h0] at h
    have hcur : current = "hello world" := (Option.some_inj.mp h).symm
    rw [hcur]
    decide

/-- C3: undo is a strict LIFO over turn snapshots.  After turns T1, T2, T3,
one `undo` pops exactly one snapshot and returns/installs the conversation
as it stood at the start of T3 (before T3's user message was appended); a
second `undo` restores the start of T2; `undo` on an empty stack returns
the nothing-to-undo result and changes nothing. -/
theorem undo_lifo (s0 s1 s2 s3 : AgentState) (u1 u2 u3 : String)
    (a1 a2 a3 : List Message → List Message)
    (e1 : s1 = doTurn s0 u1 a1) (e2 : s2 = doTurn s1 u2 a2) (e3 : s3 = doTurn s2 u3 a3)
    (hne1 : s1.messages.isEmpty = false) (hne2 : s2.messages.isEmpty = false) :
    (undo s3).1 = some s2.messages
    ∧ (undo s3).2 = ⟨s2.messages, s2.history⟩
    ∧ (undo (undo s3).2).1 = some s1.messages
    ∧ (undo (undo s3).2).2 = ⟨s1.messages, s1.history⟩
    ∧ (s0.history = [] → undo s0 = (none, s0)) := by
  have h3 : undo s3 = (some s2.messages, ⟨s2.messages, s2.history⟩) := by
    subst e3
    simp [undo, doTurn, start_turn, hne2]
  have h2' : undo (⟨s2.messages, s2.history⟩ : AgentState)
      = (some s1.messages, ⟨s1.messages, s1.history⟩) := by
    subst e2
    simp [undo, doTurn, start_turn, hne1]
  refine ⟨by rw [h3], by rw [h3], by rw [h3, h2'], by rw [h3, h2'], ?_⟩
  intro h0
  cases s0 with
  | mk ms hist =>
    simp only at h0
    subst h0
    rfl

/-- Witness for `undo_lifo`: three concrete turns from the initial state. -/
theorem undo_lifo_witness :
    (undo (doTurn (doTurn (doTurn (initState "sys") "one" id) "two" id) "three" id)).1
      = some (doTurn (doTurn (initState "sys") "one" id) "two" id).messages
    ∧ (undo (doTurn (doTurn (doTurn (initState "sys") "one" id) "two" id) "three" id)).2
      = ⟨(doTurn (doTurn (initState "sys") "one" id) "two" id).messages,
         (doTurn (doTurn (initState "sys") "one" id) "two" id).history⟩
    ∧ (undo (undo (doTurn (doTurn (doTurn (initState "sys") "one" id) "two" id) "three" id)).2).1
      = some (doTurn (initState "sys") "one" id).messages
    ∧ (undo (undo (doTurn (doTurn (doTurn (initState "sys") "one" id) "two" id) "three" id)).2).2
      = ⟨(doTurn (initState "sys") "one" id).messages,
         (doTurn (initState "sys") "one" id).history⟩
    ∧ ((initState "sys").history = [] →
        undo (initState "sys") = (none, initState "sys")) := by
  exact undo_lifo (initState "sys") _ _ _ "one" "two" "three" id id id rfl rfl rfl
    (by decide) (by decide)

/-- C4: against a backend that always answers HTTP 500, both adapters issue
exactly 3 requests with doubling backoff delays (OpenRouter 1, 2, 4 seconds;
Gemini 2, 4, 8 seconds), then raise the terminal retries-exhausted error; no
4th request is made. -/
theorem retry_three_attempts_on_500 (orB : Nat → ORStep) (gmB : Nat → GemStep)
    (model : String) (e c : Nat → Bool) (u : Nat → ORUsage)
    (cn pf : Nat → Bool) (um : Nat → Option GeminiUsage)
    (hor : ∀ k, orB k = ORStep.http 500 (e k) (c k) (u k))
    (hgm : ∀ k, gmB k = GemStep.http 500 (cn k) (pf k) (um k)) :
    call_openrouter orB = ⟨ORRes.exhausted, 3, [1, 2, 4]⟩
    ∧ call_gemini model gmB = ⟨GemRes.exhausted, 3, [2, 4, 8]⟩ := by
  constructor
  · show orLoop orB 0 3 = _
    simp [orLoop, hor]
  · show gemLoop model gmB 0 3 = _
    simp [gemLoop, hgm]

/-- Witness for `retry_three_attempts_on_500`: constant all-500 backends. -/
theorem retry_three_attempts_on_500_witness :
    call_openrouter (fun _ => ORStep.http 500 false false ⟨0, 0, 0, none⟩)
      = ⟨ORRes.exhausted, 3, [1, 2, 4]⟩
    ∧ call_gemini "gemini-2.5-pro" (fun _ => GemStep.http 500 false false none)
      = ⟨GemRes.exhausted, 3, [2, 4, 8]⟩ := by
  exact retry_three_attempts_on_500 _ _ "gemini-2.5-pro"
    (fun _ => false) (fun _ => false) (fun _ => ⟨0, 0, 0, none⟩)
    (fun _ => false) (fun _ => false) (fun _ => none)
    (fun _ => rfl) (fun _ => rfl)

/-- C5 counterexample: a backend that always answers 200 with an explicit
`error` payload in the body is retried by the OpenRouter adapter until the
3-attempt bound (sleeping between attempts), rather than raising
immediately after a single attempt as the claim states. -/
theorem or_error_payload_retried_cex :
    call_openrouter (fun _ => ORStep.http 200 true true ⟨0, 0, 0, none⟩)
      = ⟨ORRes.exhausted, 3, [1, 2, 4]⟩
    ∧ (call_openrouter (fun _ => ORStep.http 200 true true ⟨0, 0, 0, none⟩)).attempts ≠ 1 := by
  constructor
  · show orLoop _ 0 3 = _
    simp [orLoop]
  · show (orLoop _ 0 3).attempts ≠ 1
    simp [orLoop]

/-- C5 (amended): a non-2xx status other than 5xx/429 makes both adapters
raise immediately after exactly one attempt with no backoff sleep; but the
two adapters diverge on 200-bodies without a usable completion: the
OpenRouter adapter retries an explicit `error` payload and an empty
`choices` array up to the 3-attempt bound, while the Gemini adapter raises
immediately on an empty `candidates` array (the safety-block error when
`promptFeedback` is populated, otherwise the no-candidates error). -/
theorem provider_error_dispositions (s : Nat) (e c : Bool) (u : ORUsage)
    (cn pf : Bool) (um : Option GeminiUsage) (model : String)
    (orB gmB : Nat → ORStep) (gemB : Nat → GemStep)
    (e2 c2 : Nat → Bool) (u2 : Nat → ORUsage)
    (gemB2 : Nat → GemStep) (pf2 : Bool) (um2 : Option GeminiUsage)
    (h2xx : ¬ (200 ≤ s ∧ s < 300)) (h5 : s < 500) (h429 : s ≠ 429)
    (hor0 : orB 0 = ORStep.http s e c u)
    (hgm0 : gemB 0 = GemStep.http s cn pf um)
    (hor2 : ∀ k, gmB k = ORStep.http 200 (e2 k) (c2 k) (u2 k))
    (hretry : ∀ k, e2 k = true ∨ c2 k = false)
    (hgm2 : gemB2 0 = GemStep.http 200 false pf2 um2) :
    call_openrouter orB = ⟨ORRes.fatal s, 1, []⟩
    ∧ call_gemini model gemB = ⟨GemRes.fatalHttp s, 1, []⟩
    ∧ call_openrouter gmB = ⟨ORRes.exhausted, 3, [1, 2, 4]⟩
    ∧ call_gemini model gemB2
      = ⟨if pf2 then GemRes.safetyBlocked else GemRes.noCandidates, 1, []⟩ := by
  have hs200 : s ≠ 200 := by omega
  have hs500 : ¬ (500 ≤ s ∨ s = 429) := by omega
  refine ⟨?_, ?_, ?_, ?_⟩
  · show orLoop orB 0 3 = _
    rw [show (3 : Nat) = 2 + 1 from rfl]
    rw [orLoop, hor0]
    simp [hs200, hs500]
  · show gemLoop model gemB 0 3 = _
    rw [show (3 : Nat) = 2 + 1 from rfl]
    rw [gemLoop, hgm0]
    simp [hs200, hs500]
  · show orLoop gmB 0 3 = _
    have step : ∀ a f, orLoop gmB a (f + 1)
        = ⟨(orLoop gmB (a + 1) f).result, (orLoop gmB (a + 1) f).attempts + 1,
           2 ^ a :: (orLoop gmB (a + 1) f).delays⟩ := by
      intro a f
      rw [orLoop, hor2 a]
      rcases hretry a with he | hc
      · simp [he]
      · rcases h : e2 a with _ | _
        · simp [h, hc]
        · simp [h]
    rw [show (3 : Nat) = 2 + 1 from rfl, step, show (2 : Nat) = 1 + 1 from rfl, step,
      show (1 : Nat) = 0 + 1 from rfl, step]
    simp [orLoop]
  · show gemLoop model gemB2 0 3 = _
    rw [show (3 : Nat) = 2 + 1 from rfl]
    rw [gemLoop, hgm2]
    cases pf2 <;> simp

/-- Witness for `provider_error_dispositions`: a 404 response, an all-200
error-payload backend, and a 200 empty-candidates safety-block response. -/
theorem provider_error_dispositions_witness :
    call_openrouter (fun _ => ORStep.http 404 false false ⟨0, 0, 0, none⟩)
      = ⟨ORRes.fatal 404, 1, []⟩
    ∧ call_gemini "gemini-2.5-pro" (fun _ => GemStep.http 404 false false none)
      = ⟨GemRes.fatalHttp 404, 1, []⟩
    ∧ call_openrouter (fun _ => ORStep.http 200 true true ⟨0, 0, 0, none⟩)
      = ⟨ORRes.exhausted, 3, [1, 2, 4]⟩
    ∧ call_gemini "gemini-2.5-pro" (fun _ => GemStep.http 200 false true none)
      = ⟨if true then GemRes.safetyBlocked else GemRes.noCandidates, 1, []⟩ := by
  exact provider_error_dispositions 404 false false ⟨0, 0, 0, none⟩ false false none
    "gemini-2.5-pro" (fun _ => ORStep.http 404 false false ⟨0, 0, 0, none⟩)
    (fun _ => ORStep.http 200 true true ⟨0, 0, 0, none⟩)
    (fun _ => GemStep.http 404 false false none)
    (fun _ => true) (fun _ => true) (fun _ => ⟨0, 0, 0, none⟩)
    (fun _ => GemStep.http 200 false true none) true none
    (by omega) (by omega) (by omega) rfl rfl (fun _ => rfl) (fun _ => Or.inl rfl) rfl

/-- C9 counterexample: the OpenRouter adapter performs no price-table cost
computation.  A successful response whose wire usage reports 100000 prompt
tokens and no cost is returned with its usage record unchanged (cost still
absent), whereas the claimed formula at the low-tier `gemini-2.5-pro` input
rate yields 0.125 dollars — so "both adapters compute the cost … and fold
it into the returned usage record" fails for the OpenRouter adapter. -/
theorem or_cost_passthrough_cex :
    (call_openrouter (fun _ => ORStep.http 200 false true ⟨100000, 0, 0, none⟩)).result
      = ORRes.ok ⟨100000, 0, 0, none⟩
    ∧ calculate_gemini_cost "gemini-2.5-pro" (some ⟨100000, 0, 0, 0⟩) = 0.125
    ∧ (none : Option ℚ) ≠ some 0.125 := by
  refine ⟨?_, ?_, ?_⟩
  · show (orLoop _ 0 3).result = _
    simp [orLoop]
  · have hid : normalizeModelId "gemini-2.5-pro" = "gemini-2.5-pro" := by decide
    norm_num [calculate_gemini_cost, hid, geminiPricing]
  · simp

/-- C9 (amended): only the Gemini adapter computes cost from the per-model
price table: its cost equals the spec formula with the selected rate set,
the higher `gemini-2.5-pro` tier is selected exactly when prompt tokens
exceed 200000, and the computed cost is folded into the returned usage
record; the OpenRouter adapter returns the wire usage record unchanged,
performing no local price-table computation. -/
theorem gemini_cost_or_passthrough (model : String) (u : GeminiUsage) (p : Pricing)
    (gmB : Nat → GemStep) (pf : Bool) (um : Option GeminiUsage)
    (orB : Nat → ORStep) (uw : ORUsage)
    (hcached : u.cachedContentTokenCount ≤ u.promptTokenCount)
    (hp : geminiPricing (normalizeModelId model) u.promptTokenCount = some p)
    (hgm : gmB 0 = GemStep.http 200 true pf um)
    (hor : orB 0 = ORStep.http 200 false true uw) :
    calculate_gemini_cost model (some u)
      = specCostFormula p u.promptTokenCount
          (u.candidatesTokenCount + u.thoughtsTokenCount) u.cachedContentTokenCount
    ∧ (∀ pt, 200000 < pt → geminiPricing "gemini-2.5-pro" pt = some ⟨2.50, 15.00, 0.25⟩)
    ∧ (∀ pt, pt ≤ 200000 → geminiPricing "gemini-2.5-pro" pt = some ⟨1.25, 10.00, 0.125⟩)
    ∧ call_gemini model gmB
      = ⟨GemRes.ok (um.map (fun v => (v, calculate_gemini_cost model (some v)))), 1, []⟩
    ∧ call_openrouter orB = ⟨ORRes.ok uw, 1, []⟩ := by
  refine ⟨?_, ?_, ?_, ?_, ?_⟩
  · simp only [calculate_gemini_cost, hp, specCostFormula]
    rw [Nat.cast_sub hcached]
  · intro pt h
    simp [geminiPricing, h]
  · intro pt h
    have hn : ¬ pt > 200000 := by omega
    simp [geminiPricing, hn]
  · show gemLoop model gmB 0 3 = _
    rw [show (3 : Nat) = 2 + 1 from rfl]
    rw [gemLoop, hgm]
    simp
  · show orLoop orB 0 3 = _
    rw [show (3 : Nat) = 2 + 1 from rfl]
    rw [orLoop, hor]
    simp

/-- Witness for `gemini_cost_or_passthrough`: a `google/`-prefixed Gemini 3
Pro model at the low tier, a concrete successful Gemini exchange, and a
concrete OpenRouter wire usage. -/
theorem gemini_cost_or_passthrough_witness :
    calculate_gemini_cost "google/gemini-3-pro-preview" (some ⟨100000, 300, 200, 50000⟩)
      = specCostFormula ⟨2.00, 12.00, 0.20⟩ 100000 (300 + 200) 50000
    ∧ (∀ pt, 200000 < pt → geminiPricing "gemini-2.5-pro" pt = some ⟨2.50, 15.00, 0.25⟩)
    ∧ (∀ pt, pt ≤ 200000 → geminiPricing "gemini-2.5-pro" pt = some ⟨1.25, 10.00, 0.125⟩)
    ∧ call_gemini "google/gemini-3-pro-preview"
        (fun _ => GemStep.http 200 true false (some ⟨100000, 300, 200, 50000⟩))
      = ⟨GemRes.ok ((some (⟨100000, 300, 200, 50000⟩ : GeminiUsage)).map
          (fun v => (v, calculate_gemini_cost "google/gemini-3-pro-preview" (some v)))), 1, []⟩
    ∧ call_openrouter (fun _ => ORStep.http 200 false true ⟨77, 5, 3, some 0.01⟩)
      = ⟨ORRes.ok ⟨77, 5, 3, some 0.01⟩, 1, []⟩ := by
  exact gemini_cost_or_passthrough "google/gemini-3-pro-preview"
    ⟨100000, 300, 200, 50000⟩ ⟨2.00, 12.00, 0.20⟩
    (fun _ => GemStep.http 200 true false (some ⟨100000, 300, 200, 50000⟩))
    false (some ⟨100000, 300, 200, 50000⟩)
    (fun _ => ORStep.http 200 false true ⟨77, 5, 3, some 0.01⟩) ⟨77, 5, 3, some 0.01⟩
    (by norm_num)
    (by
      have hid : normalizeModelId "google/gemini-3-pro-preview" = "gemini-3-pro-preview" := by
        decide
      rw [hid]
      simp [geminiPricing])
    rfl rfl

/-- Every tool message produced by the execution loop has role `tool`,
also when the loop stops early at an argument-parse failure. -/
theorem runCalls_roles (jl : JsonLoads) (reg : Registry) (tcs : List ToolCall) :
    ∀ m ∈ (runCalls jl reg tcs).1, m.role = "tool" := by
  induction tcs with
  | nil => simp [runCalls]
  | cons tc rest ih =>
    cases hpa : parseArguments jl tc with
    | error e => simp [runCalls, hpa]
    | ok a =>
      intro m hm
      simp only [runCalls, hpa] at hm
      rcases List.mem_cons.mp hm with h | h
      · rw [h]; rfl
      · exact ih m h

/-- When every call's arguments parse, the execution loop raises nothing and
emits one tool message per call, in order, carrying the call's id (with the
`"unknown"` default), name, and role `tool`. -/
theorem runCalls_ok (jl : JsonLoads) (reg : Registry) (tcs : List ToolCall)
    (h : ∀ tc ∈ tcs, ∃ a, parseArguments jl tc = Except.ok a) :
    (runCalls jl reg tcs).2 = none
    ∧ (runCalls jl reg tcs).1.map (fun m => m.toolCallId)
        = tcs.map (fun tc => some (tc.id.getD "unknown"))
    ∧ (runCalls jl reg tcs).1.map (fun m => m.name) = tcs.map (fun tc => some tc.name)
    ∧ (runCalls jl reg tcs).1.map (fun m => m.role) = tcs.map (fun _ => "tool") := by
  induction tcs with
  | nil => simp [runCalls]
  | cons tc rest ih =>
    obtain ⟨a, ha⟩ := h tc (List.mem_cons_self tc rest)
    obtain ⟨h1, h2, h3, h4⟩ := ih (fun x hx => h x (List.mem_cons_of_mem _ hx))
    refine ⟨?_, ?_, ?_, ?_⟩ <;> simp [runCalls, ha, toolMessage, h1, h2, h3, h4]

/-- The manual-mode display loop raises nothing when every call's arguments
parse. -/
theorem displayParse_none (jl : JsonLoads) (tcs : List ToolCall)
    (h : ∀ tc ∈ tcs, ∃ a, parseArguments jl tc = Except.ok a) :
    displayParse jl tcs = none := by
  induction tcs with
  | nil => rfl
  | cons tc rest ih =>
    obtain ⟨a, ha⟩ := h tc (List.mem_cons_self tc rest)
    simp [displayParse, ha]
    exact ih (fun x hx => h x (List.mem_cons_of_mem _ hx))

/-- Shape of the cancellation batch appended when approval is declined. -/
theorem cancel_msgs_shape (tcs : List ToolCall) :
    (tcs.map cancelMessage).map (fun m => m.toolCallId)
        = tcs.map (fun tc => some (tc.id.getD "unknown"))
    ∧ (tcs.map cancelMessage).map (fun m => m.name) = tcs.map (fun tc => some tc.name)
    ∧ (tcs.map cancelMessage).map (fun m => m.role) = tcs.map (fun _ => "tool") := by
  induction tcs with
  | nil => exact ⟨rfl, rfl, rfl⟩
  | cons tc rest ih =>
    refine ⟨?_, ?_, ?_⟩ <;> simp [cancelMessage, toolMessage, ih.1, ih.2.1, ih.2.2]

/-- When every call carries an id, defaulting with `"unknown"` is the
identity on the id options. -/
theorem map_some_getD (tcs : List ToolCall) (hids : ∀ tc ∈ tcs, tc.id.isSome = true) :
    tcs.map (fun tc => some (tc.id.getD "unknown")) = tcs.map (fun tc => tc.id) := by
  induction tcs with
  | nil => rfl
  | cons tc rest ih =>
    have h1 := hids tc (List.mem_cons_self _ _)
    cases hid : tc.id with
    | none => rw [hid] at h1; simp at h1
    | some x =>
      simp only [List.map_cons, hid, Option.getD_some]
      rw [ih (fun y hy => hids y (List.mem_cons_of_mem _ hy))]

/-- C1 (amended): for every batch of tool calls whose argument strings are
empty or parse as JSON and which all carry ids, the subsystem appends
exactly n tool messages in call order — each with `tool_call_id` equal to
the corresponding call's id, the call's name, and role `tool` — and no
exception escapes; this holds in auto mode and in all manual-mode outcomes.
(A call whose arguments fail to parse instead raises out of the loop; see
the counterexample.) -/
theorem execute_tools_appends_matching (jl : JsonLoads) (reg : Registry) (mode : Mode)
    (ap : Approval) (tcs : List ToolCall)
    (hargs : ∀ tc ∈ tcs, ∃ a, parseArguments jl tc = Except.ok a)
    (hids : ∀ tc ∈ tcs, tc.id.isSome = true) :
    (execute_tools jl reg mode ap tcs).2 = none
    ∧ (execute_tools jl reg mode ap tcs).1.length = tcs.length
    ∧ (execute_tools jl reg mode ap tcs).1.map (fun m => m.toolCallId)
        = tcs.map (fun tc => tc.id)
    ∧ (execute_tools jl reg mode ap tcs).1.map (fun m => m.name)
        = tcs.map (fun tc => some tc.name)
    ∧ (execute_tools jl reg mode ap tcs).1.map (fun m => m.role)
        = tcs.map (fun _ => "tool") := by
  have hrun := runCalls_ok jl reg tcs hargs
  have hcancel := cancel_msgs_shape tcs
  have hgetd := map_some_getD tcs hids
  have run_goal :
      (runCalls jl reg tcs).2 = none
      ∧ (runCalls jl reg tcs).1.length = tcs.length
      ∧ (runCalls jl reg tcs).1.map (fun m => m.toolCallId) = tcs.map (fun tc => tc.id)
      ∧ (runCalls jl reg tcs).1.map (fun m => m.name) = tcs.map (fun tc => some tc.name)
      ∧ (runCalls jl reg tcs).1.map (fun m => m.role) = tcs.map (fun _ => "tool") := by
    refine ⟨hrun.1, ?_, ?_, hrun.2.2.1, hrun.2.2.2⟩
    · have := congrArg List.length hrun.2.1
      simpa using this
    · rw [hrun.2.1, hgetd]
  have cancel_goal :
      (tcs.map cancelMessage).length = tcs.length
      ∧ (tcs.map cancelMessage).map (fun m => m.toolCallId) = tcs.map (fun tc => tc.id)
      ∧ (tcs.map cancelMessage).map (fun m => m.name) = tcs.map (fun tc => some tc.name)
      ∧ (tcs.map cancelMessage).map (fun m => m.role) = tcs.map (fun _ => "tool") := by
    refine ⟨List.length_map _ _, ?_, hcancel.2.1, hcancel.2.2⟩
    · rw [hcancel.1, hgetd]
  have hd := displayParse_none jl tcs hargs
  cases mode with
  | auto => exact run_goal
  | manual =>
    cases ap with
    | approved =>
      have hexec : execute_tools jl reg Mode.manual Approval.approved tcs
          = runCalls jl reg tcs := by
        simp [execute_tools, hd]
      rw [hexec]
      exact run_goal
    | declined =>
      have hexec : execute_tools jl reg Mode.manual Approval.declined tcs
          = (tcs.map cancelMessage, none) := by
        simp [execute_tools, hd]
      rw [hexec]
      exact ⟨rfl, cancel_goal.1, cancel_goal.2.1, cancel_goal.2.2.1, cancel_goal.2.2.2⟩
    | interrupted =>
      have hexec : execute_tools jl reg Mode.manual Approval.interrupted tcs
          = (tcs.map cancelMessage, none) := by
        simp [execute_tools, hd]
      rw [hexec]
      exact ⟨rfl, cancel_goal.1, cancel_goal.2.1, cancel_goal.2.2.1, cancel_goal.2.2.2⟩

/-- Witness for `execute_tools_appends_matching`: a concrete two-call batch
in auto mode against the concrete registry. -/
theorem execute_tools_appends_matching_witness :
    (execute_tools jsonLoadsModel toolsModel Mode.auto Approval.approved
        [⟨some "id_1", "bash", ""⟩, ⟨some "id_2", "missing", ""⟩]).2 = none
    ∧ (execute_tools jsonLoadsModel toolsModel Mode.auto Approval.approved
        [⟨some "id_1", "bash", ""⟩, ⟨some "id_2", "missing", ""⟩]).1.length
      = [(⟨some "id_1", "bash", ""⟩ : ToolCall), ⟨some "id_2", "missing", ""⟩].length
    ∧ (execute_tools jsonLoadsModel toolsModel Mode.auto Approval.approved
        [⟨some "id_1", "bash", ""⟩, ⟨some "id_2", "missing", ""⟩]).1.map
          (fun m => m.toolCallId)
      = [(⟨some "id_1", "bash", ""⟩ : ToolCall), ⟨some "id_2", "missing", ""⟩].map
          (fun tc => tc.id)
    ∧ (execute_tools jsonLoadsModel toolsModel Mode.auto Approval.approved
        [⟨some "id_1", "bash", ""⟩, ⟨some "id_2", "missing", ""⟩]).1.map (fun m => m.name)
      = [(⟨some "id_1", "bash", ""⟩ : ToolCall), ⟨some "id_2", "missing", ""⟩].map
          (fun tc => some tc.name)
    ∧ (execute_tools jsonLoadsModel toolsModel Mode.auto Approval.approved
        [⟨some "id_1", "bash", ""⟩, ⟨some "id_2", "missing", ""⟩]).1.map (fun m => m.role)
      = [(⟨some "id_1", "bash", ""⟩ : ToolCall), ⟨some "id_2", "missing", ""⟩].map
          (fun _ => "tool") := by
  exact execute_tools_appends_matching jsonLoadsModel toolsModel Mode.auto Approval.approved
    [⟨some "id_1", "bash", ""⟩, ⟨some "id_2", "missing", ""⟩]
    (by
      intro tc htc
      simp only [List.mem_cons, List.not_mem_nil, or_false] at htc
      rcases htc with rfl | rfl <;> exact ⟨[], rfl⟩)
    (by
      intro tc htc
      simp only [List.mem_cons, List.not_mem_nil, or_false] at htc
      rcases htc with rfl | rfl <;> rfl)

/-- C1 counterexample: a single call whose argument string is the malformed
JSON text `\x7b` makes the parsing step (outside the try block) raise out of
`execute_tools`: zero tool messages are appended for a batch of one call,
refuting "exactly n tool messages are appended". -/
theorem execute_tools_parse_escape_cex :
    execute_tools jsonLoadsModel toolsModel Mode.auto Approval.approved
        [⟨some "call_1", "bash", "\x7b"⟩]
      = ([], some "Expecting property name enclosed in double quotes: line 1 column 2 (char 1)")
    ∧ (execute_tools jsonLoadsModel toolsModel Mode.auto Approval.approved
        [⟨some "call_1", "bash", "\x7b"⟩]).1.length
      ≠ [(⟨some "call_1", "bash", "\x7b"⟩ : ToolCall)].length := by
  constructor
  · rfl
  · decide

/-- C6 (amended): for a tool call whose arguments parse, the per-call loop
never raises: an unknown tool name yields the descriptive not-found error
string as the appended tool message's content, an exception raised by a
tool implementation is captured as an `Error: <message>` content, and in
either case the exception component is exactly that of the remaining calls.
(A call whose arguments fail to parse instead raises out of the subsystem;
see the counterexample.) -/
theorem tool_errors_captured (jl : JsonLoads) (reg : Registry) (tc : ToolCall)
    (rest : List ToolCall) (a : Args) (f : ToolImpl) (e : String)
    (hpa : parseArguments jl tc = Except.ok a) :
    (reg tc.name = none →
      runCalls jl reg (tc :: rest)
        = (toolMessage (tc.id.getD "unknown") tc.name
            ("Error: Tool \x27" ++ tc.name ++ "\x27 not found.") :: (runCalls jl reg rest).1,
           (runCalls jl reg rest).2))
    ∧ (reg tc.name = some f → f a = Except.error e →
      runCalls jl reg (tc :: rest)
        = (toolMessage (tc.id.getD "unknown") tc.name ("Error: " ++ e)
            :: (runCalls jl reg rest).1,
           (runCalls jl reg rest).2))
    ∧ (runCalls jl reg (tc :: rest)).2 = (runCalls jl reg rest).2 := by
  refine ⟨?_, ?_, ?_⟩
  · intro hnone
    simp [runCalls, hpa, hnone]
  · intro hsome herr
    simp [runCalls, hpa, hsome, herr]
  · simp [runCalls, hpa]

/-- Witness for `tool_errors_captured`: an unknown tool name and a raising
tool implementation, each as a concrete one-call batch. -/
theorem tool_errors_captured_witness :
    runCalls jsonLoadsModel toolsModel [⟨some "w1", "unknown_tool", ""⟩]
      = ([toolMessage "w1" "unknown_tool" "Error: Tool \x27unknown_tool\x27 not found."], none)
    ∧ runCalls jsonLoadsModel toolsModel [⟨some "w2", "raiser", ""⟩]
      = ([toolMessage "w2" "raiser" "Error: division by zero"], none) := by
  constructor
  · have h := (tool_errors_captured jsonLoadsModel toolsModel ⟨some "w1", "unknown_tool", ""⟩
      [] [] (fun _ => Except.ok "") "" rfl).1 rfl
    simpa [runCalls] using h
  · have h := (tool_errors_captured jsonLoadsModel toolsModel ⟨some "w2", "raiser", ""⟩
      [] [] (fun _ => Except.error "division by zero") "division by zero" rfl).2.1 rfl rfl
    simpa [runCalls] using h

/-- C6 counterexample: a call whose argument string is not valid JSON makes
the parse step of the per-call loop — which sits outside the try block —
raise out of `execute_tools`, refuting "execution never raises out of the
subsystem". -/
theorem tool_parse_exception_escapes_cex :
    execute_tools jsonLoadsModel toolsModel Mode.auto Approval.approved
        [⟨some "call_2", "read_file", "not valid json"⟩]
      = ([], some "Expecting value: line 1 column 1 (char 0)")
    ∧ (execute_tools jsonLoadsModel toolsModel Mode.auto Approval.approved
        [⟨some "call_2", "read_file", "not valid json"⟩]).2 ≠ none := by
  constructor
  · rfl
  · decide

/-- The final cache pass never changes a message's role. -/
theorem transformMsg_role (f : List Nat) (i : Nat) (m : Message) :
    (transformMsg f i m).role = m.role := by
  unfold transformMsg
  split
  · rfl
  · split
    · rfl
    · split
      · rfl
      · rfl

/-- The final cache pass preserves the role sequence. -/
theorem rolesOf_applyPass (f : List Nat) : ∀ (i : Nat) (l : List Message),
    rolesOf (applyPass f i l) = rolesOf l
  | _, [] => rfl
  | i, m :: rest => by
    simp only [applyPass, rolesOf, List.map_cons]
    rw [transformMsg_role]
    have h := rolesOf_applyPass f (i + 1) rest
    simp only [rolesOf] at h
    rw [h]

/-- Marking the system prompt preserves the role sequence. -/
theorem rolesOf_markFirstSystem : ∀ l : List Message,
    rolesOf (markFirstSystem l) = rolesOf l
  | [] => rfl
  | m :: rest => by
    by_cases h : m.role = "system"
    · simp [markFirstSystem, h, rolesOf]
    · simp only [markFirstSystem, if_neg h, rolesOf, List.map_cons]
      have h2 := rolesOf_markFirstSystem rest
      simp only [rolesOf] at h2
      rw [h2]

/-- Cache-marker recomputation preserves the role sequence. -/
theorem rolesOf_manage_cache (b : Bool) (l : List Message) :
    rolesOf (manage_cache b l) = rolesOf l := by
  cases b with
  | false => rfl
  | true =>
    show rolesOf (applyPass (finalIndices (markFirstSystem l)) 0 (markFirstSystem l))
      = rolesOf l
    rw [rolesOf_applyPass, rolesOf_markFirstSystem]

/-- Cache-marker recomputation preserves the system-message invariant. -/
theorem convOk_manage_cache (b : Bool) (l : List Message) (h : convOk l) :
    convOk (manage_cache b l) := by
  unfold convOk
  rw [rolesOf_manage_cache]
  exact h

/-- A non-empty head survives an append. -/
theorem head?_append_of_some {α : Type} {x y : List α} {v : α} (h : x.head? = some v) :
    (x ++ y).head? = some v := by
  cases x with
  | nil => cases h
  | cons a rest => exact h

/-- Appending only non-system messages preserves the system-message
invariant. -/
theorem convOk_append (msgs ms : List Message) (h : convOk msgs)
    (hr : ∀ m ∈ ms, m.role ≠ "system") : convOk (msgs ++ ms) := by
  obtain ⟨hh, hc⟩ := h
  have happ : rolesOf (msgs ++ ms) = rolesOf msgs ++ rolesOf ms := by
    simp [rolesOf]
  constructor
  · rw [happ]
    exact head?_append_of_some hh
  · rw [happ, List.count_append, hc]
    have h0 : (rolesOf ms).count "system" = 0 := by
      rw [List.count_eq_zero]
      intro hmem
      obtain ⟨m, hm, hrole⟩ := List.mem_map.mp hmem
      exact hr m hm hrole
    rw [h0]

/-- Every message the tool subsystem appends has role `tool`, in every mode
and approval outcome. -/
theorem execute_tools_roles (jl : JsonLoads) (reg : Registry) (mode : Mode)
    (ap : Approval) (tcs : List ToolCall) :
    ∀ m ∈ (execute_tools jl reg mode ap tcs).1, m.role = "tool" := by
  cases mode with
  | auto => exact runCalls_roles jl reg tcs
  | manual =>
    simp only [execute_tools]
    cases hd : displayParse jl tcs with
    | some e => simp
    | none =>
      cases ap with
      | approved => exact runCalls_roles jl reg tcs
      | declined =>
        intro m hm
        obtain ⟨tc, _, rfl⟩ := List.mem_map.mp hm
        rfl
      | interrupted =>
        intro m hm
        obtain ⟨tc, _, rfl⟩ := List.mem_map.mp hm
        rfl

/-- Every engine operation preserves the strengthened invariant. -/
theorem stateOk_step {s t : AgentState} (hs : stateOk s) (hstep : Step s t) : stateOk t := by
  obtain ⟨hm, hh⟩ := hs
  cases hstep with
  | user input =>
    refine ⟨convOk_append _ _ hm ?_, hh⟩
    intro m hmem
    rw [List.mem_singleton.mp hmem]
    simp [userMsg]
  | assistant content tcs =>
    refine ⟨convOk_append _ _ hm ?_, hh⟩
    intro m hmem
    rw [List.mem_singleton.mp hmem]
    simp [assistantMsg]
  | tools jl reg mode ap tcs =>
    refine ⟨convOk_append _ _ hm ?_, hh⟩
    intro m hmem
    rw [execute_tools_roles jl reg mode ap tcs m hmem]
    decide
  | startTurn =>
    refine ⟨hm, ?_⟩
    intro snap hsnap
    rcases List.mem_cons.mp hsnap with h | h
    · rw [h]; exact hm
    · exact hh snap h
  | cache b => exact ⟨convOk_manage_cache b s.messages hm, hh⟩
  | undoPop snap rest h hne =>
    refine ⟨hh snap (by rw [h]; exact List.mem_cons_self _ _), ?_⟩
    intro x hx
    exact hh x (by rw [h]; exact List.mem_cons_of_mem _ hx)
  | undoPopEmpty snap rest h he =>
    refine ⟨hm, ?_⟩
    intro x hx
    exact hh x (by rw [h]; exact List.mem_cons_of_mem _ hx)
  | undoNothing h => exact ⟨hm, hh⟩

/-- Every reachable state satisfies the strengthened invariant. -/
theorem stateOk_reachable {s : AgentState} (h : Reachable s) : stateOk s := by
  induction h with
  | init sp => exact ⟨⟨rfl, rfl⟩, by intro snap hsnap; simp [initState] at hsnap⟩
  | step hr hstep ih => exact stateOk_step ih hstep

/-- C2: in every reachable conversation the message at index 0 has role
`system` and it is the only system message — so no engine operation
(appending user/assistant/tool messages, snapshotting, cache-marker
recomputation, or undo) ever changes its role, duplicates it, or moves it
off index 0. -/
theorem conversation_system_invariant (s : AgentState) (h : Reachable s) :
    convOk s.messages :=
  (stateOk_reachable h).1

/-- Witness for `conversation_system_invariant`: the state reached after
appending a user message to the initial conversation. -/
theorem conversation_system_invariant_witness :
    convOk ((initState "You are a powerful agentic AI assistant.").messages
      ++ [userMsg "list files in /tmp"]) := by
  exact conversation_system_invariant
    ⟨(initState "You are a powerful agentic AI assistant.").messages
      ++ [userMsg "list files in /tmp"],
     (initState "You are a powerful agentic AI assistant.").history⟩
    (Reachable.step (Reachable.init _) (Step.user _ _))

/-- Marking the last block yields a marked list. -/
theorem markLast_any : ∀ bs : List Block, bs ≠ [] →
    (markLast bs).any (fun b => b.cacheControl) = true
  | [], h => absurd rfl h
  | [b], _ => by simp [markLast]
  | b :: b2 :: rest, _ => by
    simp only [markLast, List.any_cons, Bool.or_eq_true]
    exact Or.inr (markLast_any (b2 :: rest) (by simp))

/-- Marking the last block preserves emptiness. -/
theorem markLast_isEmpty : ∀ bs : List Block, (markLast bs).isEmpty = bs.isEmpty
  | [] => rfl
  | [_] => rfl
  | _ :: _ :: _ => rfl

/-- Deleting every marker yields an unmarked list. -/
theorem any_clearMarks (bs : List Block) :
    (clearMarks bs).any (fun b => b.cacheControl) = false := by
  induction bs with
  | nil => rfl
  | cons b rest ih =>
    show (({ b with cacheControl := false } : Block).cacheControl
        || (clearMarks rest).any (fun b => b.cacheControl)) = false
    rw [Bool.false_or]
    exact ih

/-- Deleting markers preserves emptiness. -/
theorem isEmpty_clearMarks (bs : List Block) : (clearMarks bs).isEmpty = bs.isEmpty := by
  cases bs <;> rfl

/-- Marker removal leaves content without a marker. -/
theorem hasCacheControl_removeMarkers (c : Content) :
    hasCacheControl (removeMarkers c) = false := by
  cases c with
  | str s => rfl
  | blocks bs => exact any_clearMarks bs

/-- Marker removal preserves non-emptiness of content. -/
theorem hasContent_removeMarkers (c : Content) :
    hasContent (removeMarkers c) = hasContent c := by
  cases c with
  | str s => rfl
  | blocks bs => simp [hasContent, removeMarkers, isEmpty_clearMarks]

/-- Marker addition preserves non-emptiness of content. -/
theorem hasContent_addMarker (c : Content) (h : hasContent c = true) :
    hasContent (addMarker c) = true := by
  cases c with
  | str s => rfl
  | blocks bs =>
    by_cases hbs : bs.isEmpty = true
    · simp [hasContent, hbs] at h
    · simp [addMarker, hbs, hasContent, markLast_isEmpty]

/-- Marker addition on already marked-addition-stable content (the empty
block list) is stable. -/
theorem addMarker_stable (c : Content) (h : hasCacheControl (addMarker c) = false) :
    addMarker (addMarker c) = addMarker c := by
  cases c with
  | str s => simp [addMarker, hasCacheControl] at h
  | blocks bs =>
    by_cases hbs : bs.isEmpty = true
    · have hnil : bs = [] := by
        cases bs with
        | nil => rfl
        | cons x xs => simp at hbs
      subst hnil
      rfl
    · have hne : bs ≠ [] := by
        cases bs with
        | nil => simp at hbs
        | cons x xs => simp
      simp only [addMarker, if_neg hbs] at h
      rw [show hasCacheControl (Content.blocks (markLast bs))
          = (markLast bs).any (fun b => b.cacheControl) from rfl] at h
      rw [markLast_any bs hne] at h
      simp at h

/-- Step 1 of the cache manager is idempotent on the system content. -/
theorem markSystemContent_idem (c : Content) :
    markSystemContent (markSystemContent c) = markSystemContent c := by
  cases c with
  | str s => rfl
  | blocks bs =>
    by_cases hany : bs.any (fun b => b.cacheControl) = true
    · simp [markSystemContent, hany]
    · by_cases hbs : bs.isEmpty = true
      · simp [markSystemContent, hany, hbs]
      · have hne : bs ≠ [] := by
          cases bs with
          | nil => simp at hbs
          | cons x xs => simp
        simp [markSystemContent, hany, hbs, markLast_any bs hne]

/-- The final cache pass preserves non-emptiness of content at kept
indices. -/
theorem transformMsg_hasContent (f : List Nat) (i : Nat) (m : Message)
    (h : i ∈ f → hasContent m.content = true) :
    hasContent (transformMsg f i m).content = hasContent m.content := by
  unfold transformMsg
  split
  · rfl
  · split
    · exact hasContent_removeMarkers m.content
    · split
      · rename_i hcond
        have hc := h hcond.2
        rw [hasContent_addMarker m.content hc, hc]
      · rfl

/-- The final cache pass is idempotent per message. -/
theorem transformMsg_idem (f : List Nat) (i : Nat) (m : Message) :
    transformMsg f i (transformMsg f i m) = transformMsg f i m := by
  by_cases hs : m.role = "system"
  · have h1 : transformMsg f i m = m := by
      unfold transformMsg
      rw [if_pos hs]
    rw [h1]
    exact h1
  · by_cases hcc : hasCacheControl m.content = true
    · by_cases hf : i ∈ f
      · have h1 : transformMsg f i m = m := by
          unfold transformMsg
          rw [if_neg hs, if_neg (fun hx => hx.2 hf), if_neg (fun hx => hx.1 hcc)]
        rw [h1]
        exact h1
      · have h1 : transformMsg f i m = { m with content := removeMarkers m.content } := by
          unfold transformMsg
          rw [if_neg hs, if_pos ⟨hcc, hf⟩]
        rw [h1]
        unfold transformMsg
        rw [if_neg hs,
          if_neg (by
            intro hx
            have h2 : hasCacheControl (removeMarkers m.content) = true := hx.1
            rw [hasCacheControl_removeMarkers] at h2
            exact Bool.false_ne_true h2),
          if_neg (fun hx => hf hx.2)]
    · by_cases hf : i ∈ f
      · have h1 : transformMsg f i m = { m with content := addMarker m.content } := by
          unfold transformMsg
          rw [if_neg hs, if_neg (fun hx => hcc hx.1), if_pos ⟨hcc, hf⟩]
        rw [h1]
        by_cases hcc2 : hasCacheControl (addMarker m.content) = true
        · unfold transformMsg
          rw [if_neg hs, if_neg (fun hx => hx.2 hf), if_neg (fun hx => hx.1 hcc2)]
        · have hcc2f : hasCacheControl (addMarker m.content) = false := by
            cases hv : hasCacheControl (addMarker m.content) with
            | false => rfl
            | true => exact absurd hv hcc2
          unfold transformMsg
          rw [if_neg hs, if_neg (fun hx => hcc2 hx.1), if_pos ⟨hcc2, hf⟩]
          show ({ m with content := addMarker (addMarker m.content) } : Message)
              = { m with content := addMarker m.content }
          rw [addMarker_stable m.content hcc2f]
      · have h1 : transformMsg f i m = m := by
          unfold transformMsg
          rw [if_neg hs, if_neg (fun hx => hcc hx.1), if_neg (fun hx => hf hx.2)]
        rw [h1]
        exact h1

/-- The final cache pass preserves length. -/
theorem applyPass_length (f : List Nat) : ∀ (i : Nat) (l : List Message),
    (applyPass f i l).length = l.length
  | _, [] => rfl
  | i, m :: rest => by
    simp only [applyPass, List.length_cons]
    rw [applyPass_length f (i + 1) rest]

/-- Elementwise view of the final cache pass. -/
theorem applyPass_getElem? (f : List Nat) : ∀ (i j : Nat) (l : List Message),
    (applyPass f i l)[j]? = (l[j]?).map (transformMsg f (i + j))
  | _, _, [] => by simp [applyPass]
  | i, 0, m :: rest => by simp [applyPass]
  | i, j + 1, m :: rest => by
    simp only [applyPass]
    rw [List.getElem?_cons_succ, List.getElem?_cons_succ]
    rw [applyPass_getElem? f (i + 1) j rest]
    rw [show i + 1 + j = i + (j + 1) by omega]

/-- The final cache pass is idempotent. -/
theorem applyPass_idem (f : List Nat) : ∀ (i : Nat) (l : List Message),
    applyPass f i (applyPass f i l) = applyPass f i l
  | _, [] => rfl
  | i, m :: rest => by
    simp only [applyPass]
    rw [transformMsg_idem, applyPass_idem f (i + 1) rest]

/-- The candidate indices depend only on length and roles. -/
theorem candidateIndices_congr {l₁ l₂ : List Message} (h1 : l₁.length = l₂.length)
    (h2 : roleAt l₁ = roleAt l₂) : candidateIndices l₁ = candidateIndices l₂ := by
  unfold candidateIndices
  rw [h1, h2]

/-- The snapping search depends only on length and content emptiness. -/
theorem searchHit_congr {l₁ l₂ : List Message} (h1 : l₁.length = l₂.length)
    (h2 : contentAt l₁ = contentAt l₂) : searchHit l₁ = searchHit l₂ := by
  funext j
  unfold searchHit
  rw [h1, h2]

/-- Snapping depends only on the search predicate. -/
theorem snapIndex_congr {l₁ l₂ : List Message} (h : searchHit l₁ = searchHit l₂) :
    snapIndex l₁ = snapIndex l₂ := by
  funext i
  unfold snapIndex
  rw [h]

/-- The kept indices depend only on candidates and snapping. -/
theorem finalIndices_congr {l₁ l₂ : List Message}
    (h1 : candidateIndices l₁ = candidateIndices l₂)
    (h2 : snapIndex l₁ = snapIndex l₂) : finalIndices l₁ = finalIndices l₂ := by
  unfold finalIndices
  rw [h1, h2]

/-- A snapped index always points at non-empty content. -/
theorem snapIndex_content (msgs : List Message) (c k : Nat)
    (h : snapIndex msgs c = some k) : contentAt msgs k = true := by
  unfold snapIndex at h
  obtain ⟨j, hfind, hk⟩ := Option.map_eq_some'.mp h
  subst hk
  have hp := List.find?_some hfind
  unfold searchHit at hp
  simp only [Bool.and_eq_true] at hp
  exact hp.2

/-- Members of the accumulation loop either were in the accumulator or are
snapped candidates. -/
theorem mem_collectFinal (snap : Nat → Option Nat) : ∀ (cs acc : List Nat) (k : Nat),
    k ∈ collectFinal snap cs acc → k ∈ acc ∨ ∃ c, snap c = some k
  | [], _, _, h => Or.inl h
  | c :: cs, acc, k, h => by
    simp only [collectFinal] at h
    cases hs : snap c with
    | none =>
      rw [hs] at h
      exact mem_collectFinal snap cs acc k h
    | some b =>
      rw [hs] at h
      dsimp only at h
      by_cases hb : b ∈ acc
      · rw [if_pos hb] at h
        exact mem_collectFinal snap cs acc k h
      · rw [if_neg hb] at h
        rcases mem_collectFinal snap cs (acc ++ [b]) k h with hacc | hex
        · rcases List.mem_append.mp hacc with hl | hr
          · exact Or.inl hl
          · rw [List.mem_singleton.mp hr]
            exact Or.inr ⟨c, hs⟩
        · exact Or.inr hex

/-- Every kept checkpoint index points at non-empty content. -/
theorem finalIndices_content (msgs : List Message) (k : Nat)
    (h : k ∈ finalIndices msgs) : contentAt msgs k = true := by
  simp only [finalIndices] at h
  have hmem : k ∈ collectFinal (snapIndex msgs) (candidateIndices msgs) [] := by
    by_cases hlen : (collectFinal (snapIndex msgs) (candidateIndices msgs) []).length
        > HISTORY_CHECKPOINTS_QUOTA
    · rw [if_pos hlen] at h
      exact List.mem_of_mem_drop h
    · rw [if_neg hlen] at h
      exact h
  rcases mem_collectFinal _ _ _ _ hmem with h0 | ⟨c, hc⟩
  · simp at h0
  · exact snapIndex_content msgs c k hc

/-- Fixed-point characterisation of the system-prompt marking step. -/
theorem markFirstSystem_eq_self : ∀ l : List Message,
    (∀ m, firstSystemMsg l = some m → markSystemContent m.content = m.content) →
    markFirstSystem l = l
  | [], _ => rfl
  | m :: rest, h => by
    by_cases hm : m.role = "system"
    · have h1 := h m (by simp [firstSystemMsg, hm])
      simp only [markFirstSystem, if_pos hm, h1]
    · simp only [markFirstSystem, if_neg hm]
      rw [markFirstSystem_eq_self rest
        (fun x hx => h x (by simp [firstSystemMsg, hm]; exact hx))]

/-- The final cache pass does not disturb the first system message. -/
theorem firstSystemMsg_applyPass (f : List Nat) : ∀ (i : Nat) (l : List Message),
    firstSystemMsg (applyPass f i l) = firstSystemMsg l
  | _, [] => rfl
  | i, m :: rest => by
    by_cases hm : m.role = "system"
    · have ht : transformMsg f i m = m := by
        unfold transformMsg
        rw [if_pos hm]
      simp only [applyPass, firstSystemMsg, ht, if_pos hm]
    · simp only [applyPass, firstSystemMsg]
      rw [if_neg (by rw [transformMsg_role]; exact hm), if_neg hm]
      exact firstSystemMsg_applyPass f (i + 1) rest

/-- The system-prompt marking step rewrites exactly the first system
message. -/
theorem firstSystemMsg_markFirstSystem : ∀ l : List Message,
    firstSystemMsg (markFirstSystem l)
      = (firstSystemMsg l).map (fun m => { m with content := markSystemContent m.content })
  | [] => rfl
  | m :: rest => by
    by_cases hm : m.role = "system"
    · simp only [markFirstSystem, if_pos hm, firstSystemMsg]
      rfl
    · simp only [markFirstSystem, if_neg hm, firstSystemMsg]
      exact firstSystemMsg_markFirstSystem rest

/-- The final cache pass preserves the role map. -/
theorem roleAt_applyPass (f : List Nat) (l : List Message) :
    roleAt (applyPass f 0 l) = roleAt l := by
  funext j
  unfold roleAt
  rw [applyPass_getElem? f 0 j l]
  cases h : l[j]? with
  | none => rfl
  | some m => simp [transformMsg_role]

/-- The final cache pass preserves content emptiness when the kept indices
point at non-empty content. -/
theorem contentAt_applyPass (f : List Nat) (l : List Message)
    (hfin : ∀ k ∈ f, contentAt l k = true) :
    contentAt (applyPass f 0 l) = contentAt l := by
  funext j
  unfold contentAt
  rw [applyPass_getElem? f 0 j l]
  cases h : l[j]? with
  | none => rfl
  | some m =>
    simp only [Option.map_some']
    show hasContent (transformMsg f (0 + j) m).content = hasContent m.content
    apply transformMsg_hasContent
    intro hjf
    have hcj := hfin (0 + j) hjf
    rw [Nat.zero_add] at hcj
    unfold contentAt at hcj
    rw [h] at hcj
    exact hcj

/-- The Anthropic cache path is idempotent. -/
theorem applyCache_idem (msgs : List Message) :
    applyCache (applyCache msgs) = applyCache msgs := by
  have hfin : ∀ k ∈ finalIndices (markFirstSystem msgs),
      contentAt (markFirstSystem msgs) k = true :=
    fun k hk => finalIndices_content _ k hk
  have hms : markFirstSystem (applyCache msgs) = applyCache msgs := by
    apply markFirstSystem_eq_self
    intro m hm
    have hm' : firstSystemMsg (applyCache msgs) = firstSystemMsg (markFirstSystem msgs) := by
      show firstSystemMsg (applyPass (finalIndices (markFirstSystem msgs)) 0
        (markFirstSystem msgs)) = _
      exact firstSystemMsg_applyPass _ 0 _
    rw [hm', firstSystemMsg_markFirstSystem] at hm
    obtain ⟨m0, hm0, hEq⟩ := Option.map_eq_some'.mp hm
    rw [← hEq]
    exact markSystemContent_idem m0.content
  have hlen : (applyCache msgs).length = (markFirstSystem msgs).length :=
    applyPass_length _ 0 _
  have hrole : roleAt (applyCache msgs) = roleAt (markFirstSystem msgs) :=
    roleAt_applyPass _ _
  have hcont : contentAt (applyCache msgs) = contentAt (markFirstSystem msgs) :=
    contentAt_applyPass _ _ hfin
  have hfi : finalIndices (applyCache msgs) = finalIndices (markFirstSystem msgs) :=
    finalIndices_congr (candidateIndices_congr hlen hrole)
      (snapIndex_congr (searchHit_congr hlen hcont))
  show applyPass (finalIndices (markFirstSystem (applyCache msgs))) 0
    (markFirstSystem (applyCache msgs)) = applyCache msgs
  rw [hms, hfi]
  exact applyPass_idem _ 0 _

/-- C8: the cache checkpoint manager is idempotent — recomputing markers
twice on an unchanged conversation produces exactly the message list (and
hence the marker placement) of a single run, for both the Anthropic path
and the non-Anthropic no-op path. -/
theorem manage_cache_idempotent (isAnthropic : Bool) (msgs : List Message) :
    manage_cache isAnthropic (manage_cache isAnthropic msgs)
      = manage_cache isAnthropic msgs := by
  cases isAnthropic with
  | false => rfl
  | true =>
    show applyCache (applyCache msgs) = applyCache msgs
    exact applyCache_idem msgs

end Agent
